import Mathlib

/-!
Verification of the request-transformation and response-relay logic of the
`ldor` reverse proxy (Go, `internal/proxy.go`, first version of the file).

The Go code manipulates JSON request bodies through the `gjson` / `sjson`
libraries.  We embed the JSON payload as an inductive `Json` value, and the
library calls as operations on that value.  The `sjson` write operations
(`SetBytes` / `DeleteBytes`) return a `([]byte, error)` pair in Go; we mirror
that shape with `Json × Option String` so the callers' error handling can be
embedded exactly as written.  Go panics (out-of-range indexing) are modelled
by a dedicated `Outcome.panic` constructor.
-/

namespace Ldor

/-- JSON values.  Numbers are modelled as integers: every numeric field the
proxy reads (`max_tokens`, `n`) is an integer count, read through
`gjson.Result.Int()`. -/
inductive Json where
  | null
  | bool (b : Bool)
  | num (n : Int)
  | str (s : String)
  | arr (elems : List Json)
  | obj (fields : List (String × Json))
deriving Repr

/-- One component of a parsed `sjson` dotted path: an object key or an array
index.  The Go code passes dotted strings such as `messages.3.content`;
`sjson` parses them into this shape before editing. -/
inductive PathComp where
  | key (k : String)
  | idx (i : Nat)
deriving Repr, DecidableEq

/-- First binding of a key in an object's field list (Go JSON objects coming
from a serializer have unique keys; `gjson` returns the first match). -/
def lookupField : List (String × Json) → String → Option Json
  | [], _ => none
  | (k', v) :: rest, k => if k' = k then some v else lookupField rest k

/-- Replace the value bound to `k` (first occurrence) in a field list. -/
def replaceField : List (String × Json) → String → Json → List (String × Json)
  | [], _, _ => []
  | (k', w) :: fs, k, v => if k' = k then (k, v) :: fs else (k', w) :: replaceField fs k v

/-- Remove the binding of `k` (first occurrence) from a field list. -/
def removeField : List (String × Json) → String → List (String × Json)
  | [], _ => []
  | (k', w) :: fs, k => if k' = k then fs else (k', w) :: removeField fs k

/-- `gjson.GetBytes(body, k)` for a single key `k`: the field of a JSON
object, `none` when absent or when the value is not an object.  (Every
`gjson` read in the proxy uses a plain single-key path.) -/
def getField (j : Json) (k : String) : Option Json :=
  match j with
  | .obj fs => lookupField fs k
  | _ => none

/-- `gjson.Result.Array()`: the elements of an array; an empty list for a
missing value or JSON null; a one-element list wrapping any other value. -/
def gjsonArray : Option Json → List Json
  | none => []
  | some (.arr xs) => xs
  | some .null => []
  | some v => [v]

/-- `gjson.Result.String()`: the string itself, numbers and booleans in
decimal/literal form, `""` for null or a missing value.  (For arrays and
objects `gjson` returns the raw JSON text; the raw text is not retained in
the value model, and no theorem below reads a composite value through
`String()`, so those cases are mapped to `""`.) -/
def gjsonString : Option Json → String
  | none => ""
  | some (.str s) => s
  | some (.num n) => toString n
  | some (.bool true) => "true"
  | some (.bool false) => "false"
  | some .null => ""
  | some (.arr _) => ""
  | some (.obj _) => ""

/-- `gjson.Result.Int()`: the number itself, a parsed numeric string, 1 for
`true`, 0 otherwise (in particular 0 for a missing field). -/
def gjsonInt : Option Json → Int
  | some (.num n) => n
  | some (.str s) => (s.toInt?).getD 0
  | some (.bool true) => 1
  | _ => 0

/-- Structure created by `sjson` when it sets a path whose tail does not
exist: nested objects for keys, null-padded arrays for indices. -/
def buildPath (v : Json) : List PathComp → Json
  | [] => v
  | .key k :: rest => .obj [(k, buildPath v rest)]
  | .idx i :: rest => .arr (List.replicate i Json.null ++ [buildPath v rest])

/-- `sjson.SetBytes(body, path, v)`: replace the value at `path` with `v`,
creating missing components.  New object keys are appended at the end of the
object, as `sjson` does. -/
def setPathJ (v : Json) : List PathComp → Json → Json
  | [], _ => v
  | .key k :: rest, .obj fs =>
    match lookupField fs k with
    | some w => .obj (replaceField fs k (setPathJ v rest w))
    | none => .obj (fs ++ [(k, buildPath v rest)])
  | .key k :: rest, _ => .obj [(k, buildPath v rest)]
  | .idx i :: rest, .arr xs =>
    if h : i < xs.length then .arr (xs.set i (setPathJ v rest xs[i]))
    else .arr (xs ++ List.replicate (i - xs.length) Json.null ++ [buildPath v rest])
  | .idx i :: rest, _ => .arr (List.replicate i Json.null ++ [buildPath v rest])

/-- `sjson.DeleteBytes(body, k)` for a single key `k`: remove the key from an
object; a missing key or a non-object body is a no-op, not an error.  (Every
delete in the proxy uses a plain single-key path.) -/
def delKey (j : Json) (k : String) : Json :=
  match j with
  | .obj fs => .obj (removeField fs k)
  | _ => j

/-- The `sjson` write interface as the Go call sites see it: each operation
returns the new buffer together with an optional error, mirroring the
`([]byte, error)` pair.  The pipelines are embedded over this interface so
that their error-handling control flow can be stated for any outcome the
library's API contract allows. -/
structure SjsonOps where
  setB : Json → List PathComp → Json → Json × Option String
  delB : Json → String → Json × Option String

/-- The error-free behaviour of `sjson` on the well-formed single-key and
`messages.N.content` paths the proxy actually uses. -/
def astOps : SjsonOps where
  setB := fun j p v => (setPathJ v p j, none)
  delB := fun j k => (delKey j k, none)

/-- Result of a Go function returning `(T, error)`, extended with a
constructor for a runtime panic. -/
inductive Outcome (α : Type) where
  | ok (a : α)
  | err (e : String)
  | panic (msg : String)
deriving Repr

/-- `strings.Contains s pat`. -/
def containsStr (s pat : String) : Bool := decide (pat.toList <:+: s.toList)

/-- `strings.HasPrefix s pre`. -/
def hasPrefixStr (s pre : String) : Bool := decide (pre.toList <+: s.toList)

/-- Constant `StableCodeModel` (proxy.go line 24). -/
def StableCodeModel : String := "stable-code"

/-- Constant `DeepSeekCoderModel` (proxy.go line 25). -/
def DeepSeekCoderModel : String := "deepseek-coder"

/-- Constant `DefaultLocale` from the configuration package. -/
def DefaultLocale : String := "zh_CN"

/-- The configuration fields read by the request-transformation pipelines
(`ServiceConfig`, config.go).  `ChatModelMapping` is a Go map, modelled as an
association list with unique keys (lookup takes the first binding).  The two
token ceilings are Go `int` values; `setDefaults` replaces them only when
they are exactly 0, so any other integer can reach the pipelines. -/
structure ServiceConfig where
  ChatModelMapping : List (String × String)
  ChatDefaultModel : String
  ChatLocale : String
  ChatMaxTokenCount : Int
  CodeInstructionModel : String
  CodexMaxTokenCount : Int

/-- Render a parsed `sjson` path back to the dotted string the Go code passed
(used in error messages: `logError("setting "+key, err)`). -/
def pathToString : List PathComp → String
  | [] => ""
  | [.key k] => k
  | [.idx i] => toString i
  | .key k :: rest => k ++ "." ++ pathToString rest
  | .idx i :: rest => toString i ++ "." ++ pathToString rest

/-- `logError` (proxy.go lines 313-316): logs and returns
`fmt.Errorf("%s: %w", action, err)`. -/
def logErrorMsg (action err : String) : String := action ++ ": " ++ err

/-- `setJSONField` (proxy.go lines 305-311): one `sjson.SetBytes` call whose
error is wrapped by `logError("setting "+key, err)`. -/
def setJSONField (ops : SjsonOps) (body : Json) (path : List PathComp) (value : Json) :
    Outcome Json :=
  match ops.setB body path value with
  | (newBody, none) => .ok newBody
  | (_, some e) => .err (logErrorMsg ("setting " ++ pathToString path) e)

/-- `setModelIfMapped` (proxy.go lines 259-265): Go map indexing yields the
zero value `""` for a missing key, and the default model replaces an empty
lookup result. -/
def setModelIfMapped (ops : SjsonOps) (modelMap : List (String × String))
    (defaultModel : String) (body : Json) : Outcome Json :=
  let model0 := (modelMap.lookup (gjsonString (getField body "model"))).getD ""
  let model := if model0 = "" then defaultModel else model0
  setJSONField ops body [.key "model"] (.str model)

/-- `setLocaleIfNeeded` (proxy.go lines 267-284).  The Go code indexes
`messages[len(messages)-1]` without a length check; on an empty array the
index is -1 and the access panics, which the model records as
`Outcome.panic`. -/
def setLocaleIfNeeded (ops : SjsonOps) (chatLocale : String) (body : Json) : Outcome Json :=
  if (getField body "function_call").isSome then .ok body
  else
    let messages := gjsonArray (getField body "messages")
    match messages.getLast? with
    | none => .panic "runtime error: index out of range [-1]"
    | some lastElem =>
      let lastMsg := gjsonString (getField lastElem "content")
      if containsStr lastMsg "Respond in the following locale" then .ok body
      else
        let locale := if chatLocale = "" then DefaultLocale else chatLocale
        let newContent := lastMsg ++ "Respond in the following locale: " ++ locale ++ "."
        setJSONField ops body
          [.key "messages", .idx (messages.length - 1), .key "content"] (.str newContent)

/-- `deleteFields` (proxy.go lines 286-295): sequential `sjson.DeleteBytes`
calls; the first error is wrapped by `logError("deleting "+field, err)` and
returned, aborting the remaining deletions. -/
def deleteFields (ops : SjsonOps) (body : Json) : List String → Outcome Json
  | [] => .ok body
  | f :: rest =>
    match ops.delB body f with
    | (body', none) => deleteFields ops body' rest
    | (_, some e) => .err (logErrorMsg ("deleting " ++ f) e)

/-- `setMaxTokensIfExceeded` (proxy.go lines 297-303): read `max_tokens`
through `gjson` (absent reads as 0) and overwrite it with the ceiling only
when strictly greater. -/
def setMaxTokensIfExceeded (ops : SjsonOps) (body : Json) (key : String)
    (maxAllowed : Int) : Outcome Json :=
  let maxTokens := gjsonInt (getField body key)
  if maxTokens > maxAllowed then setJSONField ops body [.key key] (.num maxAllowed)
  else .ok body

/-- `prepareChatRequestBody` (proxy.go lines 229-257): the chat pipeline.
Each step's error (or panic) aborts the remaining steps, exactly as the
sequence of `if err != nil { return nil, err }` checks does. -/
def prepareChatRequestBody (ops : SjsonOps) (cfg : ServiceConfig) (body : Json) :
    Outcome Json :=
  match setModelIfMapped ops cfg.ChatModelMapping cfg.ChatDefaultModel body with
  | .ok body1 =>
    match setLocaleIfNeeded ops cfg.ChatLocale body1 with
    | .ok body2 =>
      match deleteFields ops body2 ["intent", "intent_threshold", "intent_content"] with
      | .ok body3 => setMaxTokensIfExceeded ops body3 "max_tokens" cfg.ChatMaxTokenCount
      | .err e => .err e
      | .panic m => .panic m
    | .err e => .err e
    | .panic m => .panic m
  | .err e => .err e
  | .panic m => .panic m

/-- `prepareChatModelRequest` (proxy.go lines 393-406), value level: the
`sjson.SetBytes(body, "messages", messages)` call with its error logged and
ignored.  The function's final byte-level un-escaping substitution acts on
the serialized form and is modelled by `replaceLtGt` below; it rewrites only
the `\uXXXX` spellings of characters inside the serialized text and therefore
has no effect at the level of decoded values. -/
def prepareChatModelRequestVal (ops : SjsonOps) (body : Json) (messages : Json) : Json :=
  (ops.setB body [.key "messages"] messages).1

/-- The fill-in-the-middle content `fmt.Sprintf("<fim_prefix>%s<fim_suffix>%s<fim_middle>", prompt, suffix)`
(proxy.go line 371). -/
def fimContent (prompt suffix : String) : String :=
  "<fim_prefix>" ++ prompt ++ "<fim_suffix>" ++ suffix ++ "<fim_middle>"

/-- `prepareStableCodeModelRequest` (proxy.go lines 368-380), value level:
build the synthetic one-element `messages` array.  Go's `encoding/json`
serializes the `map[string]string` with its keys in sorted order
(`content` before `role`). -/
def prepareStableCodeModelRequestVal (ops : SjsonOps) (body : Json) : Json :=
  let suffix := gjsonString (getField body "suffix")
  let prompt := gjsonString (getField body "prompt")
  let content := fimContent prompt suffix
  let messages := Json.arr [Json.obj [("content", .str content), ("role", .str "user")]]
  prepareChatModelRequestVal ops body messages

/-- `prepareDeepSeekCoderModelRequest` (proxy.go lines 382-391): clamp `n`
to 1, error logged and ignored. -/
def prepareDeepSeekCoderModelRequest (ops : SjsonOps) (body : Json) : Json :=
  if gjsonInt (getField body "n") > 1 then (ops.setB body [.key "n"] (.num 1)).1
  else body

/-- `prepareCodeRequestBody` (proxy.go lines 330-366): the code pipeline.
Unlike the chat pipeline it returns only `[]byte`: every edit failure is
logged and the pipeline continues with whatever buffer the library call
returned. -/
def prepareCodeRequestBody (ops : SjsonOps) (cfg : ServiceConfig) (body : Json) : Json :=
  let body1 := (ops.delB body "extra").1
  let body2 := (ops.delB body1 "nwo").1
  let body3 := (ops.setB body2 [.key "model"] (.str cfg.CodeInstructionModel)).1
  let maxTokens := gjsonInt (getField body3 "max_tokens")
  let body4 :=
    if maxTokens > cfg.CodexMaxTokenCount then
      (ops.setB body3 [.key "max_tokens"] (.num cfg.CodexMaxTokenCount)).1
    else body3
  if containsStr cfg.CodeInstructionModel StableCodeModel then
    prepareStableCodeModelRequestVal ops body4
  else if hasPrefixStr cfg.CodeInstructionModel DeepSeekCoderModel then
    prepareDeepSeekCoderModelRequest ops body4
  else body4

/-- What a completion handler does with the inbound request after reading the
body: forward the transformed body upstream, abort with an error response, or
propagate a runtime panic out of the handler. -/
inductive HandlerOutcome where
  | forwarded (body : Json)
  | aborted (status : Nat) (message : String)
  | panicked (msg : String)
deriving Repr

/-- `handleChatCompletions` (proxy.go lines 135-165), body-preparation stage:
a failed `prepareChatRequestBody` aborts with 500 and the request is not
forwarded (lines 149-154). -/
def handleChatCompletionsBody (ops : SjsonOps) (cfg : ServiceConfig) (body : Json) :
    HandlerOutcome :=
  match prepareChatRequestBody ops cfg body with
  | .ok b => .forwarded b
  | .err _ => .aborted 500 "Failed to prepare chat request body"
  | .panic m => .panicked m

/-- `handleCodeCompletions` (proxy.go lines 108-133), body-preparation stage:
`prepareCodeRequestBody` cannot fail, so the transformed body is always
forwarded. -/
def handleCodeCompletionsBody (ops : SjsonOps) (cfg : ServiceConfig) (body : Json) :
    HandlerOutcome :=
  .forwarded (prepareCodeRequestBody ops cfg body)

/-- An upstream HTTP response as `handleProxyResponse` sees it: status code,
the `Content-Type` header (Go's `Header.Get` yields `""` when absent), and
the body bytes. -/
structure UpstreamResponse where
  statusCode : Nat
  contentType : String
  body : String
deriving Repr, DecidableEq

/-- What the inbound caller receives from the relay: either the upstream
status with the optionally propagated `Content-Type` header and the streamed
upstream body, or an error status whose JSON body carries a fixed message
(written by `respondWithError`). -/
inductive RelayedResponse where
  | success (status : Nat) (contentTypeHeader : Option String) (streamedBody : String)
  | errorJSON (status : Nat) (message : String)
deriving Repr, DecidableEq

/-- The body bytes the inbound caller can observe.  `respondWithError`
(proxy.go lines 224-227) serializes `gin.H✱error: message✱` as a JSON
object. -/
def callerVisibleBody : RelayedResponse → String
  | .success _ _ b => b
  | .errorJSON _ m => "\x7b\"error\":\"" ++ m ++ "\"\x7d"

/-- `handleProxyResponse` (proxy.go lines 205-222): any upstream status other
than exactly 200 takes the error branch, which logs the upstream body and
answers with the upstream status code and the fixed message
`Proxy request failed`; a 200 response has its status copied, its
`Content-Type` propagated when non-empty, and its body streamed through
unmodified. -/
def handleProxyResponse (resp : UpstreamResponse) : RelayedResponse :=
  if resp.statusCode ≠ 200 then .errorJSON resp.statusCode "Proxy request failed"
  else
    .success resp.statusCode
      (if resp.contentType ≠ "" then some resp.contentType else none)
      resp.body

/-- Errors an outbound HTTP execution can produce: the inbound context's
cancellation (matched by `errors.Is(err, context.Canceled)`), or any other
transport error. -/
inductive GoError where
  | canceled
  | transport (msg : String)
deriving Repr, DecidableEq

/-- `handleProxyError` (proxy.go lines 196-203): a `context.Canceled` failure
answers 408 `Request timeout`; any other failure answers 500
`Internal server error`. -/
def handleProxyError (e : GoError) : RelayedResponse :=
  if e = .canceled then .errorJSON 408 "Request timeout"
  else .errorJSON 500 "Internal server error"

/-- Modelled from the spec: the retry predicate of the third-party retry
library (`github.com/shengyanli1982/retry`, not part of this repository's
sources).  Per the spec's Resilient Client section, transport failures are
retried but "a `context canceled` error is never retried — it is surfaced
immediately". -/
def retryIfSpec (e : GoError) : Bool := e ≠ .canceled

/-- Modelled from the spec: the retry executor `retrier.TryOnConflict`
(third-party library, sources not in this repository).  `action` is the HTTP
call, indexed by attempt number; `remaining` bounds the retries after the
first attempt.  The pair returned is the final result together with the
number of times `action` was invoked.  A non-retryable error (see
`retryIfSpec`) stops the loop at once. -/
def tryOnConflictAux {α : Type} (action : Nat → Except GoError α) (attempt : Nat) :
    Nat → Except GoError α × Nat
  | 0 => (action attempt, attempt + 1)
  | remaining + 1 =>
    match action attempt with
    | .ok a => (.ok a, attempt + 1)
    | .error e =>
      if retryIfSpec e then tryOnConflictAux action (attempt + 1) remaining
      else (.error e, attempt + 1)

/-- `executeHTTPRequestWithRetry` (proxy.go lines 437-447): run the client
call under `retrier.TryOnConflict`; an unsuccessful result surfaces
`result.TryError()`. -/
def executeHTTPRequestWithRetry {α : Type} (retryCeiling : Nat)
    (doRequest : Nat → Except GoError α) : Except GoError α × Nat :=
  tryOnConflictAux doRequest 0 retryCeiling

/-- `handleProxyRequest` (proxy.go lines 185-194) composed with the relay:
an execution error goes through `handleProxyError`, a response through
`handleProxyResponse`.  The second component counts the HTTP attempts made. -/
def handleProxyRequestModel (retryCeiling : Nat)
    (doRequest : Nat → Except GoError UpstreamResponse) : RelayedResponse × Nat :=
  match executeHTTPRequestWithRetry retryCeiling doRequest with
  | (.error e, n) => (handleProxyError e, n)
  | (.ok resp, n) => (handleProxyResponse resp, n)

/-- The six characters of the escape sequence that `encoding/json` emits for
`<`. -/
def escLt : List Char := ['\\', 'u', '0', '0', '3', 'c']

/-- The six characters of the escape sequence that `encoding/json` emits for
`>`. -/
def escGt : List Char := ['\\', 'u', '0', '0', '3', 'e']

/-- The replacement pass of `prepareChatModelRequest` (proxy.go lines
400-404): the `strings.NewReplacer` built there rewrites every occurrence of
the six-character sequence `\u003c` to `<` and of `\u003e` to `>`, applied
to the whole serialized payload.  Go's `Replacer` scans left to right,
substituting each non-overlapping occurrence and copying every other byte. -/
def replaceLtGt : List Char → List Char
  | c1 :: c2 :: c3 :: c4 :: c5 :: c6 :: rest =>
    if [c1, c2, c3, c4, c5, c6] = escLt then '<' :: replaceLtGt rest
    else if [c1, c2, c3, c4, c5, c6] = escGt then '>' :: replaceLtGt rest
    else c1 :: replaceLtGt (c2 :: c3 :: c4 :: c5 :: c6 :: rest)
  | c :: rest => c :: replaceLtGt rest
  | [] => []

/-- `replaceLtGt` on strings. -/
def replaceLtGtStr (s : String) : String := .mk (replaceLtGt s.toList)

/-- Go `encoding/json` string escaping for the characters that occur in the
payloads under study: with the default (HTML-safe) encoder, `<`, `>` and `&`
become `\u003c`, `\u003e`, `\u0026`, quote and backslash are
backslash-escaped, and other printable characters are copied. -/
def goJSONEscapeChar (c : Char) : List Char :=
  if c = '<' then escLt
  else if c = '>' then escGt
  else if c = '&' then ['\\', 'u', '0', '0', '2', '6']
  else if c = '"' then ['\\', '"']
  else if c = '\\' then ['\\', '\\']
  else [c]

/-- Go `encoding/json` escaping of a whole string value. -/
def goJSONEscape (s : String) : String := .mk (s.toList.flatMap goJSONEscapeChar)

/-- The serialized form of the synthetic `messages` value that
`sjson.SetBytes` splices into the payload in `prepareChatModelRequest`:
`encoding/json` marshals the `[]map[string]string` with sorted keys
(`content` before `role`) and HTML-safe escaping. -/
def marshalMessages (content : String) : String :=
  "[\x7b\"content\":\"" ++ goJSONEscape content ++ "\",\"role\":\"user\"\x7d]"

/-! ### Lemmas about the field-editor model -/

theorem lookupField_replaceField_ne (fs : List (String × Json)) (k k' : String) (v : Json)
    (h : k' ≠ k) : lookupField (replaceField fs k v) k' = lookupField fs k' := by
  induction fs with
  | nil => rfl
  | cons p fs ih =>
    obtain ⟨k'', w⟩ := p
    by_cases hk : k'' = k
    · subst hk
      simp [replaceField, lookupField, Ne.symm h]
    · simp [replaceField, lookupField, hk]
      by_cases hk2 : k'' = k'
      · simp [hk2]
      · simp [hk2, ih]

theorem lookupField_replaceField_self (fs : List (String × Json)) (k : String) (v w : Json)
    (h : lookupField fs k = some w) : lookupField (replaceField fs k v) k = some v := by
  induction fs with
  | nil => simp [lookupField] at h
  | cons p fs ih =>
    obtain ⟨k'', w'⟩ := p
    by_cases hk : k'' = k
    · subst hk
      simp [replaceField, lookupField]
    · simp [lookupField, hk] at h
      simp [replaceField, lookupField, hk, ih h]

theorem lookupField_append_ne (fs : List (String × Json)) (k k' : String) (v : Json)
    (h : k' ≠ k) : lookupField (fs ++ [(k, v)]) k' = lookupField fs k' := by
  induction fs with
  | nil => simp [lookupField, Ne.symm h]
  | cons p fs ih =>
    obtain ⟨k'', w⟩ := p
    by_cases hk : k'' = k'
    · simp [lookupField, hk]
    · simp [lookupField, hk, ih]

theorem lookupField_append_self (fs : List (String × Json)) (k : String) (v : Json)
    (h : lookupField fs k = none) : lookupField (fs ++ [(k, v)]) k = some v := by
  induction fs with
  | nil => simp [lookupField]
  | cons p fs ih =>
    obtain ⟨k'', w⟩ := p
    by_cases hk : k'' = k
    · simp [lookupField, hk] at h
    · simp [lookupField, hk] at h ⊢
      exact ih h

theorem lookupField_removeField_ne (fs : List (String × Json)) (k k' : String)
    (h : k' ≠ k) : lookupField (removeField fs k) k' = lookupField fs k' := by
  induction fs with
  | nil => rfl
  | cons p fs ih =>
    obtain ⟨k'', w⟩ := p
    by_cases hk : k'' = k
    · subst hk
      simp [removeField, lookupField, Ne.symm h]
    · simp [removeField, lookupField, hk]
      by_cases hk2 : k'' = k'
      · simp [hk2]
      · simp [hk2, ih]

/-- Setting a path that starts with key `k` never changes any other
top-level field. -/
theorem getField_setPath_key_ne (v : Json) (k : String) (rest : List PathComp) (j : Json)
    (k' : String) (h : k' ≠ k) :
    getField (setPathJ v (.key k :: rest) j) k' = getField j k' := by
  cases j with
  | obj fs =>
    simp only [setPathJ]
    cases hlk : lookupField fs k with
    | some w => simp [getField, lookupField_replaceField_ne _ _ _ _ h]
    | none => simp [getField, lookupField_append_ne _ _ _ _ h]
  | null => simp [setPathJ, getField, lookupField, Ne.symm h]
  | bool b => simp [setPathJ, getField, lookupField, Ne.symm h]
  | num n => simp [setPathJ, getField, lookupField, Ne.symm h]
  | str s => simp [setPathJ, getField, lookupField, Ne.symm h]
  | arr xs => simp [setPathJ, getField, lookupField, Ne.symm h]

/-- Setting a single top-level key makes that key read back as the written
value, whatever the original body was. -/
theorem getField_setPath_key_self (v : Json) (k : String) (j : Json) :
    getField (setPathJ v [.key k] j) k = some v := by
  cases j with
  | obj fs =>
    simp only [setPathJ]
    cases hlk : lookupField fs k with
    | some w =>
      simpa [getField, setPathJ] using lookupField_replaceField_self fs k (setPathJ v [] w) w hlk
    | none =>
      simpa [getField, buildPath] using lookupField_append_self fs k (buildPath v []) hlk
  | null => simp [setPathJ, getField, lookupField, buildPath]
  | bool b => simp [setPathJ, getField, lookupField, buildPath]
  | num n => simp [setPathJ, getField, lookupField, buildPath]
  | str s => simp [setPathJ, getField, lookupField, buildPath]
  | arr xs => simp [setPathJ, getField, lookupField, buildPath]

/-- Deleting key `k` never changes any other top-level field. -/
theorem getField_delKey_ne (j : Json) (k k' : String) (h : k' ≠ k) :
    getField (delKey j k) k' = getField j k' := by
  cases j with
  | obj fs => simp [delKey, getField, lookupField_removeField_ne _ _ _ h]
  | null => rfl
  | bool b => rfl
  | num n => rfl
  | str s => rfl
  | arr xs => rfl

/-- Overwriting the last element of a list puts the written element at the
end. -/
theorem getLast?_set_last {α : Type} (l : List α) (a : α) (h : l ≠ []) :
    (l.set (l.length - 1) a).getLast? = some a := by
  have hlen : l.length - 1 < l.length := by
    cases l with
    | nil => exact absurd rfl h
    | cons x xs => simp
  rw [List.getLast?_eq_getElem?, List.length_set]
  simpa using List.getElem?_set_self (l := l) (a := a) hlen

/-! ### Lemmas about the un-escaping replacement pass -/

theorem no_five_split_length {l : List Char}
    (h : ∀ (c2 c3 c4 c5 c6 : Char) (rest1 : List Char),
      l = c2 :: c3 :: c4 :: c5 :: c6 :: rest1 → False) :
    l.length < 5 := by
  match l with
  | [] => simp
  | [_] => simp
  | [_, _] => simp
  | [_, _, _] => simp
  | [_, _, _, _] => simp
  | a :: b :: c :: d :: e :: t => exact (h a b c d e t rfl).elim

/-- A pattern made of characters that are never produced by a replacement
and never start one can only be a prefix of the replacer's output if it was
already a prefix of the input. -/
theorem prefix_transfer_replaceLtGt (t : List Char) :
    ∀ q : List Char, (∀ c ∈ q, c ≠ '\\' ∧ c ≠ '<' ∧ c ≠ '>') →
      q <+: replaceLtGt t → q <+: t := by
  induction t using replaceLtGt.induct with
  | case1 c1 c2 c3 c4 c5 c6 rest h1 ih =>
    intro q hq hp
    rw [replaceLtGt.eq_1, if_pos h1] at hp
    cases q with
    | nil => exact List.nil_prefix
    | cons a q' =>
      rw [List.cons_prefix_cons] at hp
      exact absurd hp.1 (hq a (by simp)).2.1
  | case2 c1 c2 c3 c4 c5 c6 rest h1 h2 ih =>
    intro q hq hp
    rw [replaceLtGt.eq_1, if_neg h1, if_pos h2] at hp
    cases q with
    | nil => exact List.nil_prefix
    | cons a q' =>
      rw [List.cons_prefix_cons] at hp
      exact absurd hp.1 (hq a (by simp)).2.2
  | case3 c1 c2 c3 c4 c5 c6 rest h1 h2 ih =>
    intro q hq hp
    rw [replaceLtGt.eq_1, if_neg h1, if_neg h2] at hp
    cases q with
    | nil => exact List.nil_prefix
    | cons a q' =>
      rw [List.cons_prefix_cons] at hp ⊢
      exact ⟨hp.1, ih q' (fun c hc => hq c (by simp [hc])) hp.2⟩
  | case4 c rest hnos ih =>
    intro q hq hp
    rw [replaceLtGt.eq_2 c rest hnos] at hp
    cases q with
    | nil => exact List.nil_prefix
    | cons a q' =>
      rw [List.cons_prefix_cons] at hp ⊢
      exact ⟨hp.1, ih q' (fun c hc => hq c (by simp [hc])) hp.2⟩
  | case5 =>
    intro q hq hp
    rw [replaceLtGt.eq_3, List.prefix_nil] at hp
    subst hp
    exact List.nil_prefix

/-- After the replacement pass, neither escape sequence occurs anywhere in
the output, whatever the input string was. -/
theorem replaceLtGt_no_esc (t : List Char) :
    ¬ escLt <:+: replaceLtGt t ∧ ¬ escGt <:+: replaceLtGt t := by
  have hsafeLt : ∀ c ∈ (['u', '0', '0', '3', 'c'] : List Char),
      c ≠ '\\' ∧ c ≠ '<' ∧ c ≠ '>' := by decide
  have hsafeGt : ∀ c ∈ (['u', '0', '0', '3', 'e'] : List Char),
      c ≠ '\\' ∧ c ≠ '<' ∧ c ≠ '>' := by decide
  induction t using replaceLtGt.induct with
  | case1 c1 c2 c3 c4 c5 c6 rest h1 ih =>
    rw [replaceLtGt.eq_1, if_pos h1]
    refine ⟨fun h => ?_, fun h => ?_⟩
    · rcases List.infix_cons_iff.mp h with h' | h'
      · rw [show escLt = '\\' :: ['u', '0', '0', '3', 'c'] from rfl,
          List.cons_prefix_cons] at h'
        exact absurd h'.1 (by decide)
      · exact ih.1 h'
    · rcases List.infix_cons_iff.mp h with h' | h'
      · rw [show escGt = '\\' :: ['u', '0', '0', '3', 'e'] from rfl,
          List.cons_prefix_cons] at h'
        exact absurd h'.1 (by decide)
      · exact ih.2 h'
  | case2 c1 c2 c3 c4 c5 c6 rest h1 h2 ih =>
    rw [replaceLtGt.eq_1, if_neg h1, if_pos h2]
    refine ⟨fun h => ?_, fun h => ?_⟩
    · rcases List.infix_cons_iff.mp h with h' | h'
      · rw [show escLt = '\\' :: ['u', '0', '0', '3', 'c'] from rfl,
          List.cons_prefix_cons] at h'
        exact absurd h'.1 (by decide)
      · exact ih.1 h'
    · rcases List.infix_cons_iff.mp h with h' | h'
      · rw [show escGt = '\\' :: ['u', '0', '0', '3', 'e'] from rfl,
          List.cons_prefix_cons] at h'
        exact absurd h'.1 (by decide)
      · exact ih.2 h'
  | case3 c1 c2 c3 c4 c5 c6 rest h1 h2 ih =>
    rw [replaceLtGt.eq_1, if_neg h1, if_neg h2]
    refine ⟨fun h => ?_, fun h => ?_⟩
    · rcases List.infix_cons_iff.mp h with h' | h'
      · rw [show escLt = '\\' :: ['u', '0', '0', '3', 'c'] from rfl,
          List.cons_prefix_cons] at h'
        have htr := prefix_transfer_replaceLtGt _ _ hsafeLt h'.2
        simp only [List.cons_prefix_cons, List.nil_prefix, and_true] at htr
        obtain ⟨e2, e3, e4, e5, e6⟩ := htr
        exact h1 (by rw [← h'.1, ← e2, ← e3, ← e4, ← e5, ← e6]; rfl)
      · exact ih.1 h'
    · rcases List.infix_cons_iff.mp h with h' | h'
      · rw [show escGt = '\\' :: ['u', '0', '0', '3', 'e'] from rfl,
          List.cons_prefix_cons] at h'
        have htr := prefix_transfer_replaceLtGt _ _ hsafeGt h'.2
        simp only [List.cons_prefix_cons, List.nil_prefix, and_true] at htr
        obtain ⟨e2, e3, e4, e5, e6⟩ := htr
        exact h2 (by rw [← h'.1, ← e2, ← e3, ← e4, ← e5, ← e6]; rfl)
      · exact ih.2 h'
  | case4 c rest hnos ih =>
    rw [replaceLtGt.eq_2 c rest hnos]
    have hlen : rest.length < 5 := no_five_split_length hnos
    refine ⟨fun h => ?_, fun h => ?_⟩
    · rcases List.infix_cons_iff.mp h with h' | h'
      · rw [show escLt = '\\' :: ['u', '0', '0', '3', 'c'] from rfl,
          List.cons_prefix_cons] at h'
        have htr := prefix_transfer_replaceLtGt _ _ hsafeLt h'.2
        have hle := htr.length_le
        simp at hle
        omega
      · exact ih.1 h'
    · rcases List.infix_cons_iff.mp h with h' | h'
      · rw [show escGt = '\\' :: ['u', '0', '0', '3', 'e'] from rfl,
          List.cons_prefix_cons] at h'
        have htr := prefix_transfer_replaceLtGt _ _ hsafeGt h'.2
        have hle := htr.length_le
        simp at hle
        omega
      · exact ih.2 h'
  | case5 =>
    rw [replaceLtGt.eq_3]
    constructor
    · intro h
      rw [List.infix_nil] at h
      exact absurd h (by decide)
    · intro h
      rw [List.infix_nil] at h
      exact absurd h (by decide)

/-- The content string of the last element of the payload's `messages`
array: the observable the locale-injection property talks about. -/
def lastMessageContent (j : Json) : Option String :=
  match (gjsonArray (getField j "messages")).getLast? with
  | none => none
  | some m => some (gjsonString (getField m "content"))

/-- An `sjson` environment whose delete operation reports a failure (the
set operations behave normally).  Used to exercise the pipelines' handling
of a failing optional-cleanup edit. -/
def delFailOps (msg : String) : SjsonOps where
  setB := fun j p v => (setPathJ v p j, none)
  delB := fun j _ => (j, some msg)

/-- An `sjson` environment whose set operation reports a failure (the delete
operations behave normally).  Used to exercise the pipelines' handling of a
failing required edit. -/
def setFailOps (msg : String) : SjsonOps where
  setB := fun j _ _ => (j, some msg)
  delB := fun j k => (delKey j k, none)

/-! ### Claim C1 -/

/-- Claim C1: the claim states that on a chat payload with no
`function_call` and an empty `messages` array, `setLocaleIfNeeded` completes
without dereferencing a last message and leaves the payload unchanged.  The
code instead evaluates `messages[len(messages)-1]` with `len = 0`, an
out-of-range index, and panics: the step is not total on that input. -/
theorem setLocaleIfNeeded_empty_messages_panics (chatLocale : String) (body : Json)
    (hfc : getField body "function_call" = none)
    (hempty : gjsonArray (getField body "messages") = []) :
    setLocaleIfNeeded astOps chatLocale body =
      .panic "runtime error: index out of range [-1]" := by
  simp [setLocaleIfNeeded, hfc, hempty]

/-- Witness for claim C1's theorem at the concrete failing input
`\x7b"messages": []\x7d`. -/
theorem setLocaleIfNeeded_empty_messages_panics_witness :
    setLocaleIfNeeded astOps "" (Json.obj [("messages", Json.arr [])]) =
      .panic "runtime error: index out of range [-1]" :=
  setLocaleIfNeeded_empty_messages_panics "" (Json.obj [("messages", Json.arr [])]) rfl rfl

/-! ### Claim C3 -/

/-- Claim C3 counterexample: an upstream 201 response is in the 2xx range,
yet the relay takes the error branch (the code compares against exactly 200)
and replaces the body with the generic proxy-failure message instead of
streaming it. -/
theorem handleProxyResponse_201_takes_error_branch :
    handleProxyResponse ⟨201, "application/json", "created-body"⟩ =
      .errorJSON 201 "Proxy request failed" ∧
    (200 ≤ 201 ∧ 201 < 300) ∧
    callerVisibleBody (handleProxyResponse ⟨201, "application/json", "created-body"⟩) ≠
      "created-body" :=
  ⟨rfl, by decide, by decide⟩

/-- Claim C3 (amended): for an upstream response with status exactly 200 the
relay copies the status code, propagates a non-empty `Content-Type` header,
and streams the upstream body to the caller unmodified. -/
theorem handleProxyResponse_200_success (resp : UpstreamResponse)
    (h : resp.statusCode = 200) :
    handleProxyResponse resp =
      .success resp.statusCode
        (if resp.contentType ≠ "" then some resp.contentType else none) resp.body := by
  simp only [handleProxyResponse, h]
  simp

/-- Witness for claim C3's amended theorem at a concrete 200 response. -/
theorem handleProxyResponse_200_success_witness :
    handleProxyResponse ⟨200, "text/event-stream", "data: chunk"⟩ =
      .success 200 (some "text/event-stream") "data: chunk" := by
  have h := handleProxyResponse_200_success ⟨200, "text/event-stream", "data: chunk"⟩ rfl
  simpa using h

/-! ### Claim C4 -/

/-- Claim C4: when the HTTP call fails with `context canceled`, no retry
attempt is made (the action runs exactly once) and the caller receives a 408
request-timeout response, not an internal error.  The retry executor's
refusal to retry a canceled error is modelled from the spec (the retry
library is an external dependency); the 408 mapping is `handleProxyError`
from the source. -/
theorem canceled_not_retried_maps_to_408 (retryCeiling : Nat)
    (doRequest : Nat → Except GoError UpstreamResponse)
    (h : doRequest 0 = .error .canceled) :
    handleProxyRequestModel retryCeiling doRequest =
      (.errorJSON 408 "Request timeout", 1) := by
  cases retryCeiling with
  | zero =>
    simp [handleProxyRequestModel, executeHTTPRequestWithRetry, tryOnConflictAux, h,
      handleProxyError]
  | succ n =>
    simp [handleProxyRequestModel, executeHTTPRequestWithRetry, tryOnConflictAux, h,
      retryIfSpec, handleProxyError]

/-- Witness for claim C4's theorem: a client whose call is canceled. -/
theorem canceled_not_retried_maps_to_408_witness :
    handleProxyRequestModel 3 (fun _ => .error .canceled) =
      (.errorJSON 408 "Request timeout", 1) :=
  canceled_not_retried_maps_to_408 3 (fun _ => .error .canceled) rfl

/-! ### Claim C5 -/

/-- Claim C5 counterexample: the claim says that whenever the inbound
`model` is a key of `ModelMapping`, the outbound `model` equals the mapped
value.  With the mapping `gpt-4 -> ""` (a key bound to the empty string),
Go's map indexing returns `""`, which the code cannot distinguish from a
missing key, so the outbound model becomes the route default instead of the
mapped value. -/
theorem setModelIfMapped_empty_value_counterexample :
    List.lookup "gpt-4" [("gpt-4", "")] = some "" ∧
    setModelIfMapped astOps [("gpt-4", "")] "default-model"
        (Json.obj [("model", Json.str "gpt-4")]) =
      .ok (Json.obj [("model", Json.str "default-model")]) ∧
    ("default-model" : String) ≠ "" :=
  ⟨rfl, rfl, by decide⟩

/-- Claim C5 (amended): if the inbound `model` is a key of `ModelMapping`
bound to a non-empty value, the outbound `model` equals that value;
otherwise — key absent, or key bound to the empty string — the outbound
`model` equals the route default. -/
theorem setModelIfMapped_amended (modelMap : List (String × String))
    (defaultModel : String) (body : Json) :
    ∃ b, setModelIfMapped astOps modelMap defaultModel body = .ok b ∧
      gjsonString (getField b "model") =
        (if (modelMap.lookup (gjsonString (getField body "model"))).getD "" = ""
         then defaultModel
         else (modelMap.lookup (gjsonString (getField body "model"))).getD "") := by
  refine ⟨setPathJ
      (.str (if (modelMap.lookup (gjsonString (getField body "model"))).getD "" = ""
             then defaultModel
             else (modelMap.lookup (gjsonString (getField body "model"))).getD ""))
      [PathComp.key "model"] body, rfl, ?_⟩
  rw [getField_setPath_key_self]
  rfl

/-! ### Claim C8 -/

/-- The clamp of `setMaxTokensIfExceeded`, described through the value that
reads back: the outbound `max_tokens` reads as the minimum of the inbound
reading and the ceiling, the field is overwritten with the ceiling exactly
when the inbound reading exceeds it, and otherwise the body is untouched. -/
theorem setMaxTokensIfExceeded_clamps (body : Json) (key : String) (ceiling : Int) :
    ∃ b, setMaxTokensIfExceeded astOps body key ceiling = .ok b ∧
      gjsonInt (getField b key) = min (gjsonInt (getField body key)) ceiling ∧
      (if gjsonInt (getField body key) > ceiling then getField b key = some (.num ceiling)
       else b = body) := by
  by_cases hgt : gjsonInt (getField body key) > ceiling
  · refine ⟨setPathJ (.num ceiling) [PathComp.key key] body, ?_, ?_, ?_⟩
    · simp [setMaxTokensIfExceeded, hgt, setJSONField, astOps]
    · rw [getField_setPath_key_self]
      show ceiling = _
      rw [min_eq_right (le_of_lt hgt)]
    · rw [if_pos hgt]
      exact getField_setPath_key_self _ _ _
  · refine ⟨body, ?_, ?_, ?_⟩
    · simp [setMaxTokensIfExceeded, hgt]
    · rw [min_eq_left (not_lt.mp hgt)]
    · rw [if_neg hgt]

/-- The code pipeline applies the same clamp: whatever model-family branch
runs afterwards, the forwarded payload's `max_tokens` reads as the minimum
of the inbound reading and the route ceiling. -/
theorem prepareCodeRequestBody_max_tokens (cfg : ServiceConfig) (body : Json) :
    gjsonInt (getField (prepareCodeRequestBody astOps cfg body) "max_tokens") =
      min (gjsonInt (getField body "max_tokens")) cfg.CodexMaxTokenCount := by
  have h3 : getField (setPathJ (.str cfg.CodeInstructionModel) [PathComp.key "model"]
        (delKey (delKey body "extra") "nwo")) "max_tokens" =
      getField body "max_tokens" := by
    rw [getField_setPath_key_ne _ _ _ _ _ (by decide),
      getField_delKey_ne _ _ _ (by decide), getField_delKey_ne _ _ _ (by decide)]
  simp only [prepareCodeRequestBody, astOps]
  rw [h3]
  by_cases hgt : gjsonInt (getField body "max_tokens") > cfg.CodexMaxTokenCount
  · rw [if_pos hgt]
    have h4 : getField (setPathJ (.num cfg.CodexMaxTokenCount) [PathComp.key "max_tokens"]
          (setPathJ (.str cfg.CodeInstructionModel) [PathComp.key "model"]
            (delKey (delKey body "extra") "nwo"))) "max_tokens" =
        some (.num cfg.CodexMaxTokenCount) := getField_setPath_key_self _ _ _
    by_cases hsc : containsStr cfg.CodeInstructionModel StableCodeModel
    · rw [if_pos hsc]
      simp only [prepareStableCodeModelRequestVal, prepareChatModelRequestVal, astOps]
      rw [getField_setPath_key_ne _ _ _ _ _ (by decide), h4]
      show cfg.CodexMaxTokenCount = _
      rw [min_eq_right (le_of_lt hgt)]
    · rw [if_neg hsc]
      by_cases hds : hasPrefixStr cfg.CodeInstructionModel DeepSeekCoderModel
      · rw [if_pos hds]
        simp only [prepareDeepSeekCoderModelRequest, astOps]
        by_cases hn : gjsonInt (getField (setPathJ (.num cfg.CodexMaxTokenCount)
            [PathComp.key "max_tokens"] (setPathJ (.str cfg.CodeInstructionModel)
              [PathComp.key "model"] (delKey (delKey body "extra") "nwo"))) "n") > 1
        · rw [if_pos hn]
          rw [getField_setPath_key_ne _ _ _ _ _ (by decide), h4]
          show cfg.CodexMaxTokenCount = _
          rw [min_eq_right (le_of_lt hgt)]
        · rw [if_neg hn, h4]
          show cfg.CodexMaxTokenCount = _
          rw [min_eq_right (le_of_lt hgt)]
      · rw [if_neg hds, h4]
        show cfg.CodexMaxTokenCount = _
        rw [min_eq_right (le_of_lt hgt)]
  · rw [if_neg hgt]
    by_cases hsc : containsStr cfg.CodeInstructionModel StableCodeModel
    · rw [if_pos hsc]
      simp only [prepareStableCodeModelRequestVal, prepareChatModelRequestVal, astOps]
      rw [getField_setPath_key_ne _ _ _ _ _ (by decide), h3]
      rw [min_eq_left (not_lt.mp hgt)]
    · rw [if_neg hsc]
      by_cases hds : hasPrefixStr cfg.CodeInstructionModel DeepSeekCoderModel
      · rw [if_pos hds]
        simp only [prepareDeepSeekCoderModelRequest, astOps]
        by_cases hn : gjsonInt (getField (setPathJ (.str cfg.CodeInstructionModel)
            [PathComp.key "model"] (delKey (delKey body "extra") "nwo")) "n") > 1
        · rw [if_pos hn]
          rw [getField_setPath_key_ne _ _ _ _ _ (by decide), h3]
          rw [min_eq_left (not_lt.mp hgt)]
        · rw [if_neg hn, h3]
          rw [min_eq_left (not_lt.mp hgt)]
      · rw [if_neg hds, h3]
        rw [min_eq_left (not_lt.mp hgt)]

/-- Claim C8 counterexample: the claim says an absent `max_tokens` is left
unchanged.  With a negative configured ceiling (which `setDefaults` accepts,
as it only replaces a ceiling equal to 0), an absent `max_tokens` reads as 0,
0 exceeds the ceiling, and the edit creates the field: the outbound payload
reads -1 where the inbound read 0. -/
theorem setMaxTokens_absent_negative_ceiling_counterexample :
    getField (Json.obj []) "max_tokens" = none ∧
    setMaxTokensIfExceeded astOps (Json.obj []) "max_tokens" (-1) =
      .ok (Json.obj [("max_tokens", Json.num (-1))]) ∧
    gjsonInt (getField (Json.obj [("max_tokens", Json.num (-1))]) "max_tokens") ≠
      gjsonInt (getField (Json.obj []) "max_tokens") :=
  ⟨rfl, rfl, by decide⟩

/-- Claim C8 (amended): in both pipelines the outbound `max_tokens` reads as
`min` of the inbound reading (0 when absent) and the route ceiling; the
field is overwritten (created if absent) with the ceiling exactly when the
inbound reading exceeds the ceiling, and the payload is untouched
otherwise. -/
theorem max_tokens_clamp_amended :
    (∀ (body : Json) (key : String) (ceiling : Int),
      ∃ b, setMaxTokensIfExceeded astOps body key ceiling = .ok b ∧
        gjsonInt (getField b key) = min (gjsonInt (getField body key)) ceiling ∧
        (if gjsonInt (getField body key) > ceiling then getField b key = some (.num ceiling)
         else b = body)) ∧
    (∀ (cfg : ServiceConfig) (body : Json),
      gjsonInt (getField (prepareCodeRequestBody astOps cfg body) "max_tokens") =
        min (gjsonInt (getField body "max_tokens")) cfg.CodexMaxTokenCount) :=
  ⟨setMaxTokensIfExceeded_clamps, prepareCodeRequestBody_max_tokens⟩

/-! ### Claim C9 -/

/-- Claim C9: on any non-2xx upstream response, the caller receives exactly
the upstream status with the fixed generic proxy-failure message; the
caller-visible answer does not depend on the upstream error body, and in
particular the string `boom` never occurs in it. -/
theorem non2xx_generic_error (resp : UpstreamResponse)
    (h : resp.statusCode < 200 ∨ 300 ≤ resp.statusCode) :
    handleProxyResponse resp = .errorJSON resp.statusCode "Proxy request failed" ∧
    (∀ body' : String,
      handleProxyResponse ⟨resp.statusCode, resp.contentType, body'⟩ = handleProxyResponse resp) ∧
    containsStr (callerVisibleBody (handleProxyResponse resp)) "boom" = false := by
  have hne : resp.statusCode ≠ 200 := by omega
  have h1 : handleProxyResponse resp = .errorJSON resp.statusCode "Proxy request failed" := by
    simp [handleProxyResponse, hne]
  refine ⟨h1, fun body' => ?_, ?_⟩
  · rw [h1]
    simp [handleProxyResponse, hne]
  · rw [h1]
    show containsStr ("\x7b\"error\":\"" ++ "Proxy request failed" ++ "\"\x7d") "boom" = false
    decide

/-- Witness for claim C9's theorem: an upstream 503 whose body is
`\x7b"error":"boom"\x7d`; the caller sees 503 with the generic message and no
`boom`. -/
theorem non2xx_generic_error_witness :
    handleProxyResponse ⟨503, "", "\x7b\"error\":\"boom\"\x7d"⟩ =
      .errorJSON 503 "Proxy request failed" ∧
    containsStr (callerVisibleBody
      (handleProxyResponse ⟨503, "", "\x7b\"error\":\"boom\"\x7d"⟩)) "boom" = false := by
  have h := non2xx_generic_error ⟨503, "", "\x7b\"error\":\"boom\"\x7d"⟩ (Or.inr (by decide))
  exact ⟨h.1, h.2.2⟩

/-! ### Claim C2 -/

/-- Claim C2 counterexample: the claim says a failing optional-cleanup
delete is ignored and the request proceeds, while a failing required edit
aborts.  In the code it is the other way around: a failing delete of the
`intent` field makes the chat handler abort with 500, and the code handler
still forwards the request when its required model-substitution and
token-limit edits fail (the unclamped `max_tokens` of 9999 goes out). -/
theorem pipeline_error_handling_counterexample :
    handleChatCompletionsBody (delFailOps "malformed payload")
        ⟨[], "gpt-3.5-turbo-instruct", "", 2048, "gpt-3.5-turbo-instruct", 2048⟩
        (Json.obj [("messages", Json.arr [Json.obj [("content", Json.str "hi")]])]) =
      .aborted 500 "Failed to prepare chat request body" ∧
    handleCodeCompletionsBody (setFailOps "malformed payload")
        ⟨[], "gpt-3.5-turbo-instruct", "", 2048, "gpt-3.5-turbo-instruct", 2048⟩
        (Json.obj [("max_tokens", Json.num 9999)]) =
      .forwarded (Json.obj [("max_tokens", Json.num 9999)]) :=
  ⟨rfl, rfl⟩

/-- Claim C2 (amended): in the chat pipeline a failure of any edit —
required or optional cleanup — aborts the request with an internal error:
every pipeline error makes the handler answer 500 without forwarding, and an
error of each of the four steps (model substitution, locale injection, the
cleanup deletions, token-limit enforcement) propagates to a pipeline error
at its point in the chain; a failing required model edit aborts for every
configuration and payload.  The code pipeline has no abort path at all, so
every edit failure there leaves the request to be forwarded. -/
theorem pipeline_error_handling_amended :
    (∀ (ops : SjsonOps) (cfg : ServiceConfig) (body : Json) (e : String),
      prepareChatRequestBody ops cfg body = .err e →
      handleChatCompletionsBody ops cfg body =
        .aborted 500 "Failed to prepare chat request body") ∧
    (∀ (ops : SjsonOps) (cfg : ServiceConfig) (body : Json) (e : String),
      (setModelIfMapped ops cfg.ChatModelMapping cfg.ChatDefaultModel body = .err e →
        prepareChatRequestBody ops cfg body = .err e) ∧
      ∀ b1, setModelIfMapped ops cfg.ChatModelMapping cfg.ChatDefaultModel body = .ok b1 →
        ((setLocaleIfNeeded ops cfg.ChatLocale b1 = .err e →
          prepareChatRequestBody ops cfg body = .err e) ∧
        ∀ b2, setLocaleIfNeeded ops cfg.ChatLocale b1 = .ok b2 →
          ((deleteFields ops b2 ["intent", "intent_threshold", "intent_content"] = .err e →
            prepareChatRequestBody ops cfg body = .err e) ∧
          ∀ b3, deleteFields ops b2 ["intent", "intent_threshold", "intent_content"] =
              .ok b3 →
            setMaxTokensIfExceeded ops b3 "max_tokens" cfg.ChatMaxTokenCount = .err e →
            prepareChatRequestBody ops cfg body = .err e))) ∧
    (∀ (cfg : ServiceConfig) (body : Json) (msg : String),
      handleChatCompletionsBody (setFailOps msg) cfg body =
        .aborted 500 "Failed to prepare chat request body") ∧
    (∀ (ops : SjsonOps) (cfg : ServiceConfig) (body : Json),
      ∃ b, handleCodeCompletionsBody ops cfg body = .forwarded b) := by
  refine ⟨?_, ?_, ?_, ?_⟩
  · intro ops cfg body e h
    simp [handleChatCompletionsBody, h]
  · intro ops cfg body e
    refine ⟨fun h1 => ?_, fun b1 h1 => ⟨fun h2 => ?_, fun b2 h2 =>
      ⟨fun h3 => ?_, fun b3 h3 h4 => ?_⟩⟩⟩
    · simp only [prepareChatRequestBody, h1]
    · simp only [prepareChatRequestBody, h1, h2]
    · simp only [prepareChatRequestBody, h1, h2, h3]
    · simp only [prepareChatRequestBody, h1, h2, h3, h4]
  · intro cfg body msg
    rfl
  · intro ops cfg body
    exact ⟨prepareCodeRequestBody ops cfg body, rfl⟩

/-- Witness for claim C2's amended theorem at concrete inputs: a failing
required model edit aborts the chat handler on a concrete payload; a failing
`intent` cleanup delete propagates through the step chain to a pipeline
error and the handler aborts; and the code handler always forwards. -/
theorem pipeline_error_handling_amended_witness :
    handleChatCompletionsBody (setFailOps "bad")
        ⟨[], "m", "", 2048, "m", 2048⟩
        (Json.obj [("messages", Json.arr [Json.obj [("content", Json.str "hello")]])]) =
      .aborted 500 "Failed to prepare chat request body" ∧
    prepareChatRequestBody (delFailOps "bad")
        ⟨[], "m", "", 2048, "m", 2048⟩
        (Json.obj [("messages", Json.arr [Json.obj [("content", Json.str "hello")]])]) =
      .err "deleting intent: bad" ∧
    handleChatCompletionsBody (delFailOps "bad")
        ⟨[], "m", "", 2048, "m", 2048⟩
        (Json.obj [("messages", Json.arr [Json.obj [("content", Json.str "hello")]])]) =
      .aborted 500 "Failed to prepare chat request body" ∧
    ∃ b, handleCodeCompletionsBody (setFailOps "bad")
        ⟨[], "m", "", 2048, "m", 2048⟩ (Json.obj []) = .forwarded b := by
  have herr : prepareChatRequestBody (delFailOps "bad")
      ⟨[], "m", "", 2048, "m", 2048⟩
      (Json.obj [("messages", Json.arr [Json.obj [("content", Json.str "hello")]])]) =
      .err "deleting intent: bad" :=
    (((pipeline_error_handling_amended.2.1 (delFailOps "bad")
        ⟨[], "m", "", 2048, "m", 2048⟩
        (Json.obj [("messages", Json.arr [Json.obj [("content", Json.str "hello")]])])
        "deleting intent: bad").2
      (Json.obj [("messages", Json.arr [Json.obj [("content", Json.str "hello")]]),
        ("model", Json.str "m")]) rfl).2
      (Json.obj [("messages", Json.arr [Json.obj [("content",
        Json.str "helloRespond in the following locale: zh_CN.")]]),
        ("model", Json.str "m")]) rfl).1 rfl
  refine ⟨?_, herr, ?_, ?_⟩
  · exact pipeline_error_handling_amended.2.2.1
      ⟨[], "m", "", 2048, "m", 2048⟩
      (Json.obj [("messages", Json.arr [Json.obj [("content", Json.str "hello")]])]) "bad"
  · exact pipeline_error_handling_amended.1 (delFailOps "bad")
      ⟨[], "m", "", 2048, "m", 2048⟩
      (Json.obj [("messages", Json.arr [Json.obj [("content", Json.str "hello")]])])
      "deleting intent: bad" herr
  · exact pipeline_error_handling_amended.2.2.2 (setFailOps "bad")
      ⟨[], "m", "", 2048, "m", 2048⟩ (Json.obj [])

/-! ### Claim C7 -/

/-- Claim C7: under a fill-in-the-middle code model, with `prompt = "foo"`
and `suffix = "bar"`, the outbound `messages` is a one-element array whose
single user message has content exactly
`<fim_prefix>foo<fim_suffix>bar<fim_middle>`; on the serialized side, the
marshalled messages value (whose markers `encoding/json` escaped) reads back
with literal angle brackets after the replacement pass, and the replacement
pass leaves no `escLt`/`escGt` escape sequence anywhere in any serialized
payload. -/
theorem fim_request_construction :
    fimContent "foo" "bar" = "<fim_prefix>foo<fim_suffix>bar<fim_middle>" ∧
    (∀ body : Json, getField body "prompt" = some (.str "foo") →
      getField body "suffix" = some (.str "bar") →
      getField (prepareStableCodeModelRequestVal astOps body) "messages" =
        some (.arr [.obj [("content", .str "<fim_prefix>foo<fim_suffix>bar<fim_middle>"),
          ("role", .str "user")]])) ∧
    replaceLtGtStr (marshalMessages (fimContent "foo" "bar")) =
      "[\x7b\"content\":\"<fim_prefix>foo<fim_suffix>bar<fim_middle>\",\"role\":\"user\"\x7d]" ∧
    (∀ s : String, containsStr (replaceLtGtStr s) (String.mk escLt) = false ∧
      containsStr (replaceLtGtStr s) (String.mk escGt) = false) := by
  refine ⟨rfl, ?_, ?_, ?_⟩
  · intro body h1 h2
    simp only [prepareStableCodeModelRequestVal, prepareChatModelRequestVal, astOps, h1, h2]
    rw [getField_setPath_key_self]
    rfl
  · rfl
  · intro s
    have h := replaceLtGt_no_esc s.toList
    constructor
    · exact decide_eq_false h.1
    · exact decide_eq_false h.2

/-- Witness for claim C7's theorem at the concrete payload
`\x7b"prompt": "foo", "suffix": "bar"\x7d`. -/
theorem fim_request_construction_witness :
    getField (prepareStableCodeModelRequestVal astOps
        (Json.obj [("prompt", Json.str "foo"), ("suffix", Json.str "bar")])) "messages" =
      some (Json.arr [Json.obj
        [("content", Json.str "<fim_prefix>foo<fim_suffix>bar<fim_middle>"),
         ("role", Json.str "user")]]) :=
  fim_request_construction.2.1
    (Json.obj [("prompt", Json.str "foo"), ("suffix", Json.str "bar")]) rfl rfl

/-! ### Claim C10 -/

/-- Claim C10: the final un-escaping substitution is applied to the whole
serialized payload, not just the synthetic message's markers: after the
pass, no occurrence of either escape sequence survives anywhere in any
serialized payload, and a concrete escape sitting inside a field other than
`messages` (here `prompt`) is rewritten as well. -/
theorem unescape_applies_to_entire_payload :
    (∀ s : String, containsStr (replaceLtGtStr s) (String.mk escLt) = false ∧
      containsStr (replaceLtGtStr s) (String.mk escGt) = false) ∧
    replaceLtGtStr ("\x7b\"messages\":[],\"prompt\":\"" ++ String.mk escLt ++ "div" ++
        String.mk escGt ++ "\"\x7d") =
      "\x7b\"messages\":[],\"prompt\":\"<div>\"\x7d" := by
  refine ⟨?_, rfl⟩
  intro s
  have h := replaceLtGt_no_esc s.toList
  exact ⟨decide_eq_false h.1, decide_eq_false h.2⟩

/-! ### Claim C6 -/

/-- The locale that gets injected: the route's configured locale, or the
built-in default when unset (`setLocaleIfNeeded`, proxy.go lines 278-281). -/
def effectiveLocale (loc : String) : String := if loc = "" then DefaultLocale else loc

/-- The locale marker is contained in any content the locale step just
produced. -/
theorem marker_infix_append (a c : String) :
    containsStr (a ++ "Respond in the following locale: " ++ c ++ ".")
      "Respond in the following locale" = true := by
  apply decide_eq_true
  rw [show ("Respond in the following locale: " : String) =
    "Respond in the following locale" ++ ": " from rfl]
  refine ⟨a.toList, ": ".toList ++ c.toList ++ ".".toList, ?_⟩
  show a.toList ++ "Respond in the following locale".toList ++
      (": ".toList ++ c.toList ++ ".".toList) =
    (a ++ ("Respond in the following locale" ++ ": ") ++ c ++ ".").toList
  have hd : ∀ s t : String, (s ++ t).toList = s.toList ++ t.toList := fun _ _ => rfl
  rw [hd, hd, hd, hd]
  simp [List.append_assoc]

/-- Evaluation of `setModelIfMapped` under the error-free editor: some model
string is written to the top-level `model` key. -/
theorem setModelIfMapped_astOps_eq (mm : List (String × String)) (dm : String) (j : Json) :
    ∃ m : String, setModelIfMapped astOps mm dm j =
      .ok (setPathJ (.str m) [PathComp.key "model"] j) :=
  ⟨_, rfl⟩

/-- Evaluation of the chat pipeline's `deleteFields` call under the
error-free editor. -/
theorem deleteFields_astOps_eq (j : Json) :
    deleteFields astOps j ["intent", "intent_threshold", "intent_content"] =
      .ok (delKey (delKey (delKey j "intent") "intent_threshold") "intent_content") := rfl

/-- The three intent deletions leave every other top-level field alone. -/
theorem getField_delKey3_ne (j : Json) (k' : String) (h1 : k' ≠ "intent")
    (h2 : k' ≠ "intent_threshold") (h3 : k' ≠ "intent_content") :
    getField (delKey (delKey (delKey j "intent") "intent_threshold") "intent_content") k' =
      getField j k' := by
  rw [getField_delKey_ne _ _ _ h3, getField_delKey_ne _ _ _ h2, getField_delKey_ne _ _ _ h1]

/-- Evaluation of `setMaxTokensIfExceeded` under the error-free editor: it
succeeds and only the targeted key can change. -/
theorem setMaxTokens_astOps_exists (j : Json) (key : String) (ceiling : Int) :
    ∃ b, setMaxTokensIfExceeded astOps j key ceiling = .ok b ∧
      ∀ k', k' ≠ key → getField b k' = getField j k' := by
  by_cases h : gjsonInt (getField j key) > ceiling
  · exact ⟨setPathJ (.num ceiling) [PathComp.key key] j,
      by simp [setMaxTokensIfExceeded, h, setJSONField, astOps],
      fun k' hk => getField_setPath_key_ne _ _ _ _ _ hk⟩
  · exact ⟨j, by simp [setMaxTokensIfExceeded, h], fun _ _ => rfl⟩

/-- Setting `messages.i.content`-style paths on a body whose `messages` is
an array rewrites exactly the addressed element. -/
theorem getField_setPath_messages_idx (v : Json) (j : Json) (msgs : List Json) (i : Nat)
    (rest : List PathComp) (hj : getField j "messages" = some (.arr msgs))
    (hi : i < msgs.length) :
    getField (setPathJ v (.key "messages" :: .idx i :: rest) j) "messages" =
      some (.arr (msgs.set i (setPathJ v rest (msgs.get ⟨i, hi⟩)))) := by
  cases j with
  | obj fs =>
    have hlk : lookupField fs "messages" = some (.arr msgs) := hj
    show getField (setPathJ v (.key "messages" :: .idx i :: rest) (.obj fs)) "messages" = _
    simp only [setPathJ, hlk]
    show lookupField
        (replaceField fs "messages" (setPathJ v (.idx i :: rest) (.arr msgs))) "messages" = _
    rw [lookupField_replaceField_self fs "messages" _ _ hlk]
    congr 2
    simp only [setPathJ]
    rw [dif_pos hi]
    rfl
  | null => simp [getField] at hj
  | bool b => simp [getField] at hj
  | num n => simp [getField] at hj
  | str s => simp [getField] at hj
  | arr xs => simp [getField] at hj

/-- Evaluation of `setLocaleIfNeeded` under the error-free editor when the
marker is absent from the last message: the pipeline appends the locale
instruction to that content. -/
theorem setLocaleIfNeeded_eval_append (loc : String) (j : Json) (msgs2 : List Json) (m : Json)
    (hfc : getField j "function_call" = none)
    (hm : getField j "messages" = some (.arr msgs2))
    (hlast : msgs2.getLast? = some m)
    (hmk : containsStr (gjsonString (getField m "content"))
      "Respond in the following locale" = false) :
    setLocaleIfNeeded astOps loc j = .ok (setPathJ
      (.str (gjsonString (getField m "content") ++ "Respond in the following locale: " ++
        effectiveLocale loc ++ "."))
      [.key "messages", .idx (msgs2.length - 1), .key "content"] j) := by
  simp only [setLocaleIfNeeded, hfc, Option.isSome_none, Bool.false_eq_true, if_false, hm,
    gjsonArray, hlast, hmk, setJSONField, astOps, effectiveLocale]

/-- Evaluation of `setLocaleIfNeeded` when the marker is already present in
the last message: the payload passes through unchanged. -/
theorem setLocaleIfNeeded_eval_skip (loc : String) (j : Json) (msgs2 : List Json) (m : Json)
    (hfc : getField j "function_call" = none)
    (hm : getField j "messages" = some (.arr msgs2))
    (hlast : msgs2.getLast? = some m)
    (hmk : containsStr (gjsonString (getField m "content"))
      "Respond in the following locale" = true) :
    setLocaleIfNeeded astOps loc j = .ok j := by
  simp only [setLocaleIfNeeded, hfc, Option.isSome_none, Bool.false_eq_true, if_false, hm,
    gjsonArray, hlast, hmk, if_true]

/-- Claim C6: for a chat payload without `function_call`, with a non-empty
`messages` array whose last content lacks the locale marker, the chat
pipeline appends `Respond in the following locale: LOC.` to that content,
where LOC is the configured locale or the built-in default when unset; and
re-running the pipeline on its own output leaves the last message content
unchanged (the marker is then present, so nothing more is appended). -/
theorem chat_locale_append_idempotent (cfg : ServiceConfig) (body : Json) (msgs : List Json)
    (hfc : getField body "function_call" = none)
    (hmsg : getField body "messages" = some (Json.arr msgs))
    (hne : msgs ≠ [])
    (hnomark : containsStr (gjsonString (getField (msgs.getLast hne) "content"))
      "Respond in the following locale" = false) :
    ∃ b, prepareChatRequestBody astOps cfg body = .ok b ∧
      lastMessageContent b = some (gjsonString (getField (msgs.getLast hne) "content") ++
        "Respond in the following locale: " ++ effectiveLocale cfg.ChatLocale ++ ".") ∧
      ∃ b2, prepareChatRequestBody astOps cfg b = .ok b2 ∧
        lastMessageContent b2 = lastMessageContent b := by
  have hi : msgs.length - 1 < msgs.length :=
    Nat.sub_lt (List.length_pos.mpr hne) Nat.one_pos
  obtain ⟨m1, h1⟩ := setModelIfMapped_astOps_eq cfg.ChatModelMapping cfg.ChatDefaultModel body
  set B1 := setPathJ (.str m1) [PathComp.key "model"] body with hB1def
  have hb1m : getField B1 "messages" = some (.arr msgs) := by
    rw [hB1def, getField_setPath_key_ne _ _ _ _ _ (by decide)]
    exact hmsg
  have hb1fc : getField B1 "function_call" = none := by
    rw [hB1def, getField_setPath_key_ne _ _ _ _ _ (by decide)]
    exact hfc
  have hloc1 := setLocaleIfNeeded_eval_append cfg.ChatLocale B1 msgs (msgs.getLast hne)
    hb1fc hb1m (List.getLast?_eq_getLast msgs hne) hnomark
  set NC := gjsonString (getField (msgs.getLast hne) "content") ++
    "Respond in the following locale: " ++ effectiveLocale cfg.ChatLocale ++ "." with hNCdef
  set M2 := setPathJ (.str NC) [PathComp.key "content"]
    (msgs.get ⟨msgs.length - 1, hi⟩) with hM2def
  set MSGS2 := msgs.set (msgs.length - 1) M2 with hMSGS2def
  set B2 := setPathJ (.str NC)
    [.key "messages", .idx (msgs.length - 1), .key "content"] B1 with hB2def
  have hb2m : getField B2 "messages" = some (.arr MSGS2) := by
    rw [hB2def, hMSGS2def, hM2def]
    exact getField_setPath_messages_idx _ _ _ _ _ hb1m hi
  have hb2fc : getField B2 "function_call" = none := by
    rw [hB2def, getField_setPath_key_ne _ _ _ _ _ (by decide)]
    exact hb1fc
  set B3 := delKey (delKey (delKey B2 "intent") "intent_threshold") "intent_content" with hB3def
  have hdel1 : deleteFields astOps B2 ["intent", "intent_threshold", "intent_content"] =
      .ok B3 := deleteFields_astOps_eq B2
  have hb3m : getField B3 "messages" = some (.arr MSGS2) := by
    rw [hB3def, getField_delKey3_ne _ _ (by decide) (by decide) (by decide)]
    exact hb2m
  have hb3fc : getField B3 "function_call" = none := by
    rw [hB3def, getField_delKey3_ne _ _ (by decide) (by decide) (by decide)]
    exact hb2fc
  obtain ⟨B4, h4, h4pres⟩ := setMaxTokens_astOps_exists B3 "max_tokens" cfg.ChatMaxTokenCount
  have hb4m : getField B4 "messages" = some (.arr MSGS2) := by
    rw [h4pres _ (by decide)]
    exact hb3m
  have hb4fc : getField B4 "function_call" = none := by
    rw [h4pres _ (by decide)]
    exact hb3fc
  have hlastM : MSGS2.getLast? = some M2 := by
    rw [hMSGS2def]
    exact getLast?_set_last msgs M2 hne
  have hm2content : getField M2 "content" = some (.str NC) := by
    rw [hM2def]
    exact getField_setPath_key_self _ _ _
  have hlast4 : lastMessageContent B4 = some NC := by
    simp only [lastMessageContent, hb4m, gjsonArray, hlastM, hm2content]
    rfl
  have hpipe1 : prepareChatRequestBody astOps cfg body = .ok B4 := by
    simp only [prepareChatRequestBody, h1, hloc1, hdel1, h4]
  obtain ⟨m2, h21⟩ := setModelIfMapped_astOps_eq cfg.ChatModelMapping cfg.ChatDefaultModel B4
  set B5 := setPathJ (.str m2) [PathComp.key "model"] B4 with hB5def
  have hb5m : getField B5 "messages" = some (.arr MSGS2) := by
    rw [hB5def, getField_setPath_key_ne _ _ _ _ _ (by decide)]
    exact hb4m
  have hb5fc : getField B5 "function_call" = none := by
    rw [hB5def, getField_setPath_key_ne _ _ _ _ _ (by decide)]
    exact hb4fc
  have hmark : containsStr (gjsonString (getField M2 "content"))
      "Respond in the following locale" = true := by
    rw [hm2content]
    show containsStr NC "Respond in the following locale" = true
    rw [hNCdef]
    exact marker_infix_append _ _
  have hloc2 := setLocaleIfNeeded_eval_skip cfg.ChatLocale B5 MSGS2 M2 hb5fc hb5m hlastM hmark
  set B6 := delKey (delKey (delKey B5 "intent") "intent_threshold") "intent_content" with hB6def
  have hdel2 : deleteFields astOps B5 ["intent", "intent_threshold", "intent_content"] =
      .ok B6 := deleteFields_astOps_eq B5
  have hb6m : getField B6 "messages" = some (.arr MSGS2) := by
    rw [hB6def, getField_delKey3_ne _ _ (by decide) (by decide) (by decide)]
    exact hb5m
  obtain ⟨B7, h27, h27pres⟩ := setMaxTokens_astOps_exists B6 "max_tokens" cfg.ChatMaxTokenCount
  have hb7m : getField B7 "messages" = some (.arr MSGS2) := by
    rw [h27pres _ (by decide)]
    exact hb6m
  have hlast7 : lastMessageContent B7 = some NC := by
    simp only [lastMessageContent, hb7m, gjsonArray, hlastM, hm2content]
    rfl
  have hpipe2 : prepareChatRequestBody astOps cfg B4 = .ok B7 := by
    simp only [prepareChatRequestBody, h21, hloc2, hdel2, h27]
  exact ⟨B4, hpipe1, hlast4, B7, hpipe2, by rw [hlast7, hlast4]⟩

/-- Witness for claim C6's theorem at a concrete one-message payload with
content `hello`, an empty configured locale (so the built-in default is
used), and an empty model mapping. -/
theorem chat_locale_append_idempotent_witness :
    ∃ b, prepareChatRequestBody astOps ⟨[], "m", "", 2048, "m", 2048⟩
        (Json.obj [("messages", Json.arr [Json.obj [("content", Json.str "hello")]])]) =
        .ok b ∧
      lastMessageContent b = some ("hello" ++ "Respond in the following locale: " ++
        effectiveLocale "" ++ ".") ∧
      ∃ b2, prepareChatRequestBody astOps ⟨[], "m", "", 2048, "m", 2048⟩ b = .ok b2 ∧
        lastMessageContent b2 = lastMessageContent b :=
  chat_locale_append_idempotent ⟨[], "m", "", 2048, "m", 2048⟩
    (Json.obj [("messages", Json.arr [Json.obj [("content", Json.str "hello")]])])
    [Json.obj [("content", Json.str "hello")]]
    rfl rfl (by simp) (by decide)

end Ldor
